import Mathlib

/-!
Verification of the Candidate Discovery & Resolution Engine specification.

The engine's implementation (link evaluation, candidate ranking, best-candidate
selection) is exercised by `tests/unit/test_finder.py` but its source module is
not part of the available tree, so the definitions below are modelled from the
specification document (sections 3, 4.1, 4.2, 4.3): data model, link evaluator,
candidate evaluator (filtering and composite sort key) and package finder.
All machine strings are handled as `List Char` so every operation is a
structurally recursive, kernel-evaluable function.
-/

namespace PipFinder

/-! ### Basic string helpers -/

/-- True when the character is one of the separators `-`, `_`, `.` that
project-name normalization collapses. -/
def isSepChar (c : Char) : Bool := c == '-' || c == '_' || c == '.'

/-- Modelled from the spec: the missing name-normalization utility.  Project
names are compared case-insensitively with runs of `-`, `_`, `.` collapsed to
a single canonical separator (spec section 3, Invariants). -/
def canonCharsAux : Bool → List Char → List Char
  | _, [] => []
  | prevSep, c :: rest =>
    if isSepChar c then
      (if prevSep then [] else ['-']) ++ canonCharsAux true rest
    else
      c.toLower :: canonCharsAux false rest

/-- Modelled from the spec: canonical form of a project name (case-insensitive,
`-`/`_`/`.` collapsed to `-`). -/
def canonicalize_name (s : String) : String := ⟨canonCharsAux false s.data⟩

/-- Split a character list on a separator character. -/
def splitOnCharAux (sep : Char) : List Char → List Char → List (List Char)
  | acc, [] => [acc.reverse]
  | acc, c :: rest =>
    if c = sep then acc.reverse :: splitOnCharAux sep [] rest
    else splitOnCharAux sep (c :: acc) rest

/-- Split a character list on a separator character (like `str.split`). -/
def splitOnChar (sep : Char) (l : List Char) : List (List Char) :=
  splitOnCharAux sep [] l

/-- Interpret a nonempty all-digit character list as a natural number. -/
def digitsToNat? (l : List Char) : Option Nat :=
  if l ≠ [] ∧ l.all Char.isDigit then
    some (l.foldl (fun n c => n * 10 + (c.toNat - 48)) 0)
  else none

/-- Interpret the leading digits of a character list as a natural number
(zero when there are none). -/
def leadingNat (l : List Char) : Nat :=
  (l.takeWhile Char.isDigit).foldl (fun n c => n * 10 + (c.toNat - 48)) 0

/-- Boolean test that `a` is an initial segment of `b`. -/
def strLeads : List Char → List Char → Bool
  | [], _ => true
  | _ :: _, [] => false
  | a :: as, b :: bs => a == b && strLeads as bs

/-- `a` is a proper initial segment of `b` (so in particular `a ≠ b`). -/
def properLead (a b : String) : Prop := a ≠ b ∧ strLeads a.data b.data = true

/-- Drop a case-insensitive suffix from a string, returning the stem. -/
def strDropSuffix? (s suf : String) : Option String :=
  let l := s.data
  let m := suf.data
  if l.length < m.length then none
  else if (l.drop (l.length - m.length)).map Char.toLower = m then
    some ⟨l.take (l.length - m.length)⟩
  else none

/-! ### Versions

Modelled from the spec (section 3, Invariants): public-version semantics with
full release > pre-release > dev-release and numeric, left-to-right comparison
inside the release segment. -/

/-- Release modifier of a public version: development release, pre-release
(phase 0 = a, 1 = b, 2 = rc) or final release.  Ordered dev < pre < final. -/
inductive VMod where
  | dev (n : Nat)
  | pre (phase : Nat) (n : Nat)
  | final
  deriving DecidableEq, Repr

/-- Modelled from the spec: a parsed public version — numeric release segments
plus an optional dev/pre-release modifier. -/
structure Version where
  release : List Nat
  mod : VMod
  deriving DecidableEq, Repr

/-- A version is a pre-release or dev-release (excluded by default filtering). -/
def Version.isPre (v : Version) : Bool :=
  match v.mod with
  | .final => false
  | _ => true

/-- Parse the final dotted segment of a version string: plain digits, digits
followed by a pre-release marker (`a`/`b`/`c`/`rc` plus digits), or a
`dev`-segment.  Returns the optional release component and the modifier. -/
def parseLastSeg (seg : List Char) : Option (Option Nat × VMod) :=
  match digitsToNat? seg with
  | some n => some (some n, .final)
  | none =>
    if strLeads ['d', 'e', 'v'] seg then
      match digitsToNat? (seg.drop 3) with
      | some n => some (none, .dev n)
      | none => none
    else
      let ds := seg.takeWhile Char.isDigit
      let rest := seg.dropWhile Char.isDigit
      match digitsToNat? ds with
      | none => none
      | some d =>
        if strLeads ['r', 'c'] rest then
          match digitsToNat? (rest.drop 2) with
          | some n => some (some d, .pre 2 n)
          | none => none
        else if strLeads ['a'] rest then
          match digitsToNat? (rest.drop 1) with
          | some n => some (some d, .pre 0 n)
          | none => none
        else if strLeads ['b'] rest then
          match digitsToNat? (rest.drop 1) with
          | some n => some (some d, .pre 1 n)
          | none => none
        else if strLeads ['c'] rest then
          match digitsToNat? (rest.drop 1) with
          | some n => some (some d, .pre 2 n)
          | none => none
        else none

/-- Parse the dotted segments of a version string into release components and
a modifier.  Every non-final segment must be all digits; the final segment may
carry the pre-release or dev marker. -/
def parseSegs : List (List Char) → Option (List Nat × VMod)
  | [] => none
  | [seg] =>
    match parseLastSeg seg with
    | none => none
    | some (some n, m) => some ([n], m)
    | some (none, m) => some ([], m)
  | seg :: rest =>
    match digitsToNat? seg with
    | none => none
    | some n =>
      match parseSegs rest with
      | none => none
      | some (l, m) => some (n :: l, m)

/-- Modelled from the spec: version parsing.  Parsing never raises; malformed
version strings yield `none` and are recorded as rejections (spec section 3,
ParsedArchiveName). -/
def parseVersion (l : List Char) : Option Version :=
  match parseSegs (splitOnChar '.' (l.map Char.toLower)) with
  | none => none
  | some (rel, m) => if rel = [] then none else some ⟨rel, m⟩

/-! ### Comparison primitives -/

/-- Three-way comparison of naturals. -/
def cmpNat (a b : Nat) : Ordering :=
  if a < b then .lt else if b < a then .gt else .eq

/-- Left-to-right numeric comparison of release segments (spec section 3:
"numeric, left-to-right comparison inside each release segment"). -/
def cmpRelease : List Nat → List Nat → Ordering
  | [], [] => .eq
  | [], _ :: _ => .lt
  | _ :: _, [] => .gt
  | a :: as, b :: bs => (cmpNat a b).then (cmpRelease as bs)

/-- Lexicographic comparison of pairs from component comparisons. -/
def cmpProd {β γ : Type} (cb : β → β → Ordering) (cg : γ → γ → Ordering)
    (x y : β × γ) : Ordering :=
  (cb x.1 y.1).then (cg x.2 y.2)

/-- Numeric encoding of a version modifier: dev < pre < final, with the
numeric payloads as tie-breaks. -/
def vmodRank : VMod → Nat × Nat × Nat
  | .dev n => (0, n, 0)
  | .pre p n => (1, p, n)
  | .final => (2, 0, 0)

/-- Comparison of version modifiers. -/
def cmpVMod (a b : VMod) : Ordering :=
  cmpProd cmpNat (cmpProd cmpNat cmpNat) (vmodRank a) (vmodRank b)

/-- Modelled from the spec: total comparison of public versions — release
segments first, then full release > pre-release > dev-release. -/
def cmpVersion (a b : Version) : Ordering :=
  cmpProd cmpRelease cmpVMod (a.release, a.mod) (b.release, b.mod)

/-! ### Specifiers -/

/-- Comparison operator of a specifier clause. -/
inductive SpecOp where
  | lt | le | eq | ne | ge | gt
  deriving DecidableEq, Repr

/-- One comparison clause of a specifier set. -/
structure Clause where
  op : SpecOp
  version : Version
  deriving DecidableEq, Repr

/-- Whether a version satisfies one specifier clause. -/
def clauseHolds (v : Version) (cl : Clause) : Bool :=
  match cl.op with
  | .lt => cmpVersion v cl.version == .lt
  | .le => cmpVersion v cl.version != .gt
  | .eq => cmpVersion v cl.version == .eq
  | .ne => cmpVersion v cl.version != .eq
  | .ge => cmpVersion v cl.version != .lt
  | .gt => cmpVersion v cl.version == .gt

/-- Modelled from the spec: a version satisfies a specifier set when it
satisfies every clause (conjunction of comparison clauses, spec section 6). -/
def specMatches (spec : List Clause) (v : Version) : Bool :=
  spec.all (clauseHolds v)

/-- The specifier itself demands a pre-release: one of its clauses names a
pre-release or dev version (spec section 4.2 filtering rule). -/
def specifierPermitsPre (spec : List Clause) : Bool :=
  spec.any (fun cl => cl.version.isPre)

/-- The specifier pins one exact version (used by the yank-allowance rule:
spec section 4.1 check 7). -/
def isExactPin (spec : List Clause) : Bool :=
  match spec with
  | [cl] => cl.op == .eq
  | _ => false

/-! ### Links and policies -/

/-- URL scheme of a link: exactly one of local-file / http / https / other
(spec section 3, Link). -/
inductive Scheme where
  | localFile | http | https | other
  deriving DecidableEq, Repr

/-- Modelled from the spec: a parsed candidate source location plus attached
metadata (spec section 3, Link).  Immutable once constructed. -/
structure Link where
  url : String
  scheme : Scheme
  filename : String
  yanked : Bool
  requiresInterpreter : Option Nat
  digest : Option String
  deriving DecidableEq, Repr

/-- Distribution format: source or prebuilt binary. -/
inductive Format where
  | source | binary
  deriving DecidableEq, Repr

instance : BEq Format := instBEqOfDecidableEq

/-- An interpreter/ABI/platform compatibility tag triple. -/
abbrev TagT : Type := String × String × String

/-- Modelled from the spec: per-finder evaluation policy — target project
name, specifier set, prerelease inclusion flag, allowed formats, ordered
supported-tag list, yank allowance, hash requirement and interpreter profile
(spec section 3, EvaluationPolicy). -/
structure EvaluationPolicy where
  projectName : String
  specifier : List Clause
  allowAllPrereleases : Bool
  formats : List Format
  supportedTags : List TagT
  allowYanked : Bool
  requiredDigests : Option (List String)
  interpreterVersion : Nat

/-! ### Filename parsing -/

/-- Fields parsed from a built-distribution (wheel) filename
`name-version(-build)?-interp-abi-plat.whl` (spec section 6 grammar). -/
structure WheelInfo where
  name : String
  versionStr : String
  build : Option Nat
  interp : String
  abi : String
  plat : String
  deriving DecidableEq, Repr

/-- Parse a wheel-filename stem into its dash-separated fields.  The optional
build tag must begin with a digit; its integer value is kept. -/
def parseWheelStem (stem : String) : Option WheelInfo :=
  match splitOnChar '-' stem.data with
  | [n, v, i, a, p] =>
    some ⟨⟨n⟩, ⟨v⟩, none, ⟨i⟩, ⟨a⟩, ⟨p⟩⟩
  | [n, v, b, i, a, p] =>
    match b with
    | [] => none
    | c :: _ =>
      if c.isDigit then some ⟨⟨n⟩, ⟨v⟩, some (leadingNat b), ⟨i⟩, ⟨a⟩, ⟨p⟩⟩
      else none
  | _ => none

/-- Expand a wheel's compressed tag fields (dot-separated alternatives) into
the list of concrete tag triples the wheel supports. -/
def wheelTags (w : WheelInfo) : List TagT :=
  (splitOnChar '.' w.interp.data).flatMap fun i =>
    (splitOnChar '.' w.abi.data).flatMap fun a =>
      (splitOnChar '.' w.plat.data).map fun p =>
        ((⟨i⟩ : String), (⟨a⟩ : String), (⟨p⟩ : String))

/-- Index of a tag in the policy's ordered supported-tag list. -/
def idxOf? : List TagT → TagT → Option Nat
  | [], _ => none
  | s :: rest, t => if s = t then some 0 else (idxOf? rest t).map (· + 1)

/-- Most-preferred (smallest) index among the wheel's tags in the policy's
ordered supported-tag list; `none` when no tag matches. -/
def supportIndex (supported : List TagT) (ts : List TagT) : Option Nat :=
  (ts.filterMap (idxOf? supported)).foldl
    (fun acc i =>
      match acc with
      | none => some i
      | some j => some (min i j))
    none

/-- Scan an sdist stem for the dash that separates the project name from the
version: the first dash whose prefix canonicalizes to the target's canonical
name.  Returns the matched name and the version characters after the dash. -/
def findVersionSuffix (canonical : String) : List Char → List Char → Option (String × List Char)
  | _, [] => none
  | acc, ch :: rest =>
    if ch = '-' ∧ canonicalize_name ⟨acc.reverse⟩ = canonical then
      some (⟨acc.reverse⟩, rest)
    else findVersionSuffix canonical (ch :: acc) rest

/-- Strip a recognized source-distribution extension. -/
def sdistStem? (fn : String) : Option String :=
  match strDropSuffix? fn ".tar.gz" with
  | some s => some s
  | none =>
    match strDropSuffix? fn ".tar.bz2" with
    | some s => some s
    | none =>
      match strDropSuffix? fn ".tgz" with
      | some s => some s
      | none => strDropSuffix? fn ".zip"

/-- Result of parsing a link filename against a target canonical name. -/
inductive ParsedLink where
  | wheelFile (w : WheelInfo)
  | sdistFile (n : String) (vchars : List Char)
  | noVersion
  | badWheel
  | badExt
  deriving DecidableEq, Repr

/-- Modelled from the spec: derive a `ParsedArchiveName` from a filename.
Parsing never raises; unrecognized extensions, malformed wheel stems and sdist
stems with no name/version split matching the target are distinct failures
(spec section 3, ParsedArchiveName; section 6, filename grammars). -/
def parseLinkFilename (canonical : String) (fn : String) : ParsedLink :=
  match strDropSuffix? fn ".whl" with
  | some stem =>
    match parseWheelStem stem with
    | some w => .wheelFile w
    | none => .badWheel
  | none =>
    match sdistStem? fn with
    | none => .badExt
    | some stem =>
      match findVersionSuffix canonical [] stem.data with
      | some (n, v) => .sdistFile n v
      | none => .noVersion

/-- The project name a link's filename parses to (target-relative for sdists). -/
def linkParsedName (canonical : String) (fn : String) : Option String :=
  match parseLinkFilename canonical fn with
  | .wheelFile w => some w.name
  | .sdistFile n _ => some n
  | _ => none

/-! ### Link evaluation -/

/-- Result of evaluating one link: accepted with its parsed version, or
rejected with a stable human-readable reason (spec section 4.1). -/
inductive EvalResult where
  | accepted (version : Version)
  | rejected (reason : String)
  deriving DecidableEq, Repr

/-- The link's minimum-interpreter constraint is not met by the policy's
target profile (spec section 4.1 check 5). -/
def interpUnmet (pol : EvaluationPolicy) (link : Link) : Bool :=
  match link.requiresInterpreter with
  | none => false
  | some m => decide (pol.interpreterVersion < m)

/-- Checks 4–7 of link evaluation, after name and version have been parsed:
tag support (binary only), interpreter constraint, allowed formats, yank
policy (spec section 4.1). -/
def laterChecks (pol : EvaluationPolicy) (link : Link) (fmt : Format)
    (ts : List TagT) (v : Version) : EvalResult :=
  if fmt == .binary ∧ (supportIndex pol.supportedTags ts).isNone then
    .rejected "unsupported tag"
  else if interpUnmet pol link then
    .rejected "unmet interpreter constraint"
  else if ¬ pol.formats.contains fmt then
    .rejected ("format not allowed for " ++ pol.projectName)
  else if link.yanked ∧ ¬ (pol.allowYanked ∧ isExactPin pol.specifier = true) then
    .rejected "yanked"
  else .accepted v

/-- Modelled from the spec: the missing LinkEvaluator.  Performs the spec's
checks in order, short-circuiting on the first failure: filename parses,
project name matches the target canonically (no substring/prefix match),
version parses, tags supported, interpreter constraint met, format allowed,
yank policy (spec section 4.1). -/
def evaluate_link (pol : EvaluationPolicy) (link : Link) : EvalResult :=
  match parseLinkFilename (canonicalize_name pol.projectName) link.filename with
  | .badExt => .rejected ("unsupported archive format: " ++ link.filename)
  | .badWheel => .rejected ("invalid wheel filename: " ++ link.filename)
  | .noVersion => .rejected ("Missing project version for " ++ pol.projectName)
  | .wheelFile w =>
    if canonicalize_name w.name = canonicalize_name pol.projectName then
      match parseVersion w.versionStr.data with
      | none => .rejected ("Missing project version for " ++ pol.projectName)
      | some v => laterChecks pol link .binary (wheelTags w) v
    else
      .rejected ("wrong project name (not " ++ pol.projectName ++ ")")
  | .sdistFile _ vchars =>
    match parseVersion vchars with
    | none => .rejected ("unparsable version in " ++ link.filename)
    | some v => laterChecks pol link .source [] v

/-! ### Candidates and sources -/

/-- Modelled from the spec: an immutable accepted record (name, version, link),
created only by a successful LinkEvaluator pass (spec section 3). -/
structure InstallationCandidate where
  name : String
  version : Version
  link : Link
  deriving DecidableEq, Repr

/-- Kind of a candidate source: find-links location or index page. -/
inductive SourceKind where
  | findLinks | index
  deriving DecidableEq, Repr

instance : BEq SourceKind := instBEqOfDecidableEq

/-- Modelled from the spec: one candidate source — a named find-links location
or index page whose fetched link listing is already resolved (spec sections 5
and 6: the engine receives a complete batch of links per source). -/
structure Source where
  name : String
  kind : SourceKind
  links : List Link
  deriving DecidableEq, Repr

/-- Evaluate every link of a source, keeping the accepted ones as candidates
(name normalized, version parsed). -/
def evalSourceLinks (pol : EvaluationPolicy) (links : List Link) :
    List InstallationCandidate :=
  links.filterMap fun l =>
    match evaluate_link pol l with
    | .accepted v => some ⟨canonicalize_name pol.projectName, v, l⟩
    | .rejected _ => none

/-- Collapse duplicate (version, url) pairs, keeping the first occurrence
encountered (spec section 4.3). -/
def dedupCandidates : List (Version × String) → List InstallationCandidate →
    List InstallationCandidate
  | _, [] => []
  | seen, c :: rest =>
    if (c.version, c.link.url) ∈ seen then dedupCandidates seen rest
    else c :: dedupCandidates ((c.version, c.link.url) :: seen) rest

/-- Modelled from the spec: the missing PackageFinder.find_all_candidates.
Concatenates candidates from find-links sources (declared order) then index
sources (declared order), each individually filtered by the LinkEvaluator,
collapsing duplicate (version, url) pairs (spec section 4.3). -/
def find_all_candidates (pol : EvaluationPolicy) (srcs : List Source) :
    List InstallationCandidate :=
  dedupCandidates []
    (((srcs.filter fun s => s.kind == .findLinks) ++
      (srcs.filter fun s => s.kind == .index)).flatMap
        fun s => evalSourceLinks pol s.links)

/-- Modelled from the spec: CandidateEvaluator filtering.  Excludes versions
failing the specifier set, and pre-release/dev versions unless explicitly
allowed or the specifier itself demands a pre-release (spec section 4.2). -/
def applicableCandidates (pol : EvaluationPolicy)
    (cands : List InstallationCandidate) : List InstallationCandidate :=
  cands.filter fun c =>
    specMatches pol.specifier c.version &&
      (pol.allowAllPrereleases || specifierPermitsPre pol.specifier ||
        !c.version.isPre)

/-! ### The composite sort key -/

/-- Modelled from the spec: the CandidateEvaluator's composite sort key, one
field per comparator component in significance order — (1) not-yanked over
yanked, (2) hash-verified over unverified when a hash policy is active,
(3) local-file scheme over network over other, (4) binary format over source,
(5) parsed version, (6) build tag with absent lowest, (7) supported-tag
specificity where an earlier position in the policy's tag list wins
(spec section 4.2). -/
structure SortKey where
  yankRank : Nat
  hashRank : Nat
  schemeRank : Nat
  formatRank : Nat
  version : Version
  buildRank : Nat × Nat
  tagRank : Nat
  deriving DecidableEq, Repr

/-- Rank of a link's scheme: local-file above network above other. -/
def schemeRankOf : Scheme → Nat
  | .localFile => 2
  | .http => 1
  | .https => 1
  | .other => 0

/-- Rank of an optional integer build tag: absent is lowest, then the
integer value (spec section 4.2 component 6). -/
def buildRankOf : Option Nat → Nat × Nat
  | none => (0, 0)
  | some n => (1, n)

/-- Whether the candidate's digest satisfies an active hash policy. -/
def hashRankOf (pol : EvaluationPolicy) (link : Link) : Nat :=
  match pol.requiredDigests, link.digest with
  | some ds, some d => if d ∈ ds then 1 else 0
  | _, _ => 0

/-- Tag-specificity rank: earlier supported-tag positions rank higher; source
distributions (no tags) rank lowest. -/
def tagRankOf (pol : EvaluationPolicy) (ts : List TagT) : Nat :=
  match supportIndex pol.supportedTags ts with
  | some i => pol.supportedTags.length - i
  | none => 0

/-- Modelled from the spec: the sort key of a candidate, re-deriving the
format, build tag and tags from the link filename (spec section 4.2). -/
def candKey (pol : EvaluationPolicy) (c : InstallationCandidate) : SortKey :=
  let base : SortKey :=
    { yankRank := if c.link.yanked then 0 else 1
      hashRank := hashRankOf pol c.link
      schemeRank := schemeRankOf c.link.scheme
      formatRank := 0
      version := c.version
      buildRank := (0, 0)
      tagRank := 0 }
  match strDropSuffix? c.link.filename ".whl" with
  | none => base
  | some stem =>
    match parseWheelStem stem with
    | none => base
    | some w =>
      { base with
          formatRank := 1
          buildRank := buildRankOf w.build
          tagRank := tagRankOf pol (wheelTags w) }

/-- Flatten a sort key into a right-nested tuple for lexicographic
comparison. -/
def sortKeyTuple (k : SortKey) :
    Nat × Nat × Nat × Nat × Version × (Nat × Nat) × Nat :=
  (k.yankRank, k.hashRank, k.schemeRank, k.formatRank, k.version, k.buildRank,
    k.tagRank)

/-- Modelled from the spec: the comparator — a single composite key compared
lexicographically, most-significant component first (spec section 4.2). -/
def cmpSortKey (a b : SortKey) : Ordering :=
  cmpProd cmpNat (cmpProd cmpNat (cmpProd cmpNat (cmpProd cmpNat
    (cmpProd cmpVersion (cmpProd (cmpProd cmpNat cmpNat) cmpNat)))))
    (sortKeyTuple a) (sortKeyTuple b)

/-! ### Sorting and selection -/

/-- Insert a candidate into a descending-sorted list, keeping it before the
first element it is not strictly below (this matches a stable descending
sort, as `sorted(..., key=sort_key, reverse=True)` produces). -/
def insertCand (pol : EvaluationPolicy) (c : InstallationCandidate) :
    List InstallationCandidate → List InstallationCandidate
  | [] => [c]
  | d :: rest =>
    if cmpSortKey (candKey pol c) (candKey pol d) = .lt then
      d :: insertCand pol c rest
    else c :: d :: rest

/-- Stable descending sort of candidates by the composite key. -/
def sortCandidates (pol : EvaluationPolicy) (l : List InstallationCandidate) :
    List InstallationCandidate :=
  l.foldr (insertCand pol) []

/-- Select the maximal candidate under the comparator, keeping the earliest
of equally ranked candidates (a later candidate replaces the current best
only when strictly greater). -/
def pickBest (pol : EvaluationPolicy) :
    InstallationCandidate → List InstallationCandidate → InstallationCandidate
  | c, [] => c
  | c, d :: ds =>
    pickBest pol
      (if cmpSortKey (candKey pol d) (candKey pol c) = .gt then d else c) ds

/-- The top-ranked candidate of a list, or none when the list is empty. -/
def bestCandidate (pol : EvaluationPolicy) :
    List InstallationCandidate → Option InstallationCandidate
  | [] => none
  | c :: cs => some (pickBest pol c cs)

/-- Modelled from the spec: tagged result of a finder call — Found,
AlreadySatisfied or NotFound naming every consulted source (spec section 3,
Outcome).  Discovery failures are data, not exceptions. -/
inductive Outcome where
  | found (c : InstallationCandidate)
  | alreadySatisfied
  | notFound (consulted : List String)
  deriving DecidableEq, Repr

/-- Modelled from the spec: the missing PackageFinder.find_best_candidate.
Computes all candidates, applies filtering and ranking; an empty ranked set
yields NotFound naming every consulted source; when an installed version is
supplied and no remaining candidate outranks it, AlreadySatisfied; otherwise
Found with the top-ranked candidate.  An installed distribution carries only a
version — it has no link, so the link-derived comparator components (scheme,
format, build tag, tags) compare equal against it and outranking reduces to
the version component (spec section 4.3). -/
def find_best_candidate (pol : EvaluationPolicy) (srcs : List Source)
    (installed : Option Version) : Outcome :=
  match bestCandidate pol (applicableCandidates pol (find_all_candidates pol srcs)),
      installed with
  | none, _ => .notFound (srcs.map fun s => s.name)
  | some best, none => .found best
  | some best, some iv =>
    if cmpVersion iv best.version = .lt then .found best else .alreadySatisfied

/-! ### Concrete instances exercised by the theorems -/

/-- A plain, non-yanked link with no interpreter constraint or digest. -/
def mkLink (url : String) (sch : Scheme) (fn : String) : Link :=
  { url := url, scheme := sch, filename := fn, yanked := false,
    requiresInterpreter := none, digest := none }

/-- Tag list of a CPython 2/3 target profile. -/
def defaultTags : List TagT := [("py2", "none", "any"), ("py3", "none", "any")]

/-- A default policy for a project: empty specifier, no pre-releases, both
formats allowed, no yank allowance, no hash requirement. -/
def basicPolicy (name : String) : EvaluationPolicy :=
  { projectName := name, specifier := [], allowAllPrereleases := false,
    formats := [.source, .binary], supportedTags := defaultTags,
    allowYanked := false, requiredDigests := none, interpreterVersion := 3 }

def v10 : Version := ⟨[1, 0], .final⟩
def v20 : Version := ⟨[2, 0], .final⟩
def v20b1 : Version := ⟨[2, 0], .pre 1 1⟩
def v115 : Version := ⟨[1, 15], .final⟩
def v90 : Version := ⟨[9, 0], .final⟩

/-- Policy for the `pytest` name-matching scenarios. -/
def pytestPolicy : EvaluationPolicy := basicPolicy "pytest"

def pytestOkLink : Link :=
  mkLink "http://yo/pytest-1.0.tar.gz" .http "pytest-1.0.tar.gz"
def pytest2Link : Link :=
  mkLink "http://yo/pytest2-1.0.tar.gz" .http "pytest2-1.0.tar.gz"
def pytestXdistLink : Link :=
  mkLink "http://yo/pytest_xdist-1.0-py2.py3-none-any.whl" .http
    "pytest_xdist-1.0-py2.py3-none-any.whl"

def simplePolicy : EvaluationPolicy := basicPolicy "simple"
def simple2Link : Link :=
  mkLink "https://pkgs/simple2-1.0.tar.gz" .https "simple2-1.0.tar.gz"

/-- `bar` pre-release scenario of the stable-release tests. -/
def barPolicy : EvaluationPolicy := basicPolicy "bar"
def barPolicyPre : EvaluationPolicy := { barPolicy with allowAllPrereleases := true }
def barPolicySpec : EvaluationPolicy :=
  { barPolicy with specifier := [⟨.ge, ⟨[0, 0], .dev 0⟩⟩] }

def barLink10 : Link := mkLink "https://foo/bar-1.0.tar.gz" .https "bar-1.0.tar.gz"
def barLink20b1 : Link :=
  mkLink "https://foo/bar-2.0b1.tar.gz" .https "bar-2.0b1.tar.gz"
def barSource : Source :=
  { name := "https://foo", kind := .findLinks, links := [barLink10, barLink20b1] }
def barCand10 : InstallationCandidate := ⟨"bar", v10, barLink10⟩
def barCand20b1 : InstallationCandidate := ⟨"bar", v20b1, barLink20b1⟩

/-- `priority` wheel-versus-sdist scenario. -/
def priorityPolicy : EvaluationPolicy := basicPolicy "priority"
def prioritySdistLink : Link :=
  mkLink "https://f/priority-1.0.tar.gz" .https "priority-1.0.tar.gz"
def priorityWheelLink : Link :=
  mkLink "https://f/priority-1.0-py2.py3-none-any.whl" .https
    "priority-1.0-py2.py3-none-any.whl"
def prioritySdistFileLink : Link :=
  mkLink "file:///pkgs/priority-1.0.tar.gz" .localFile "priority-1.0.tar.gz"
def prioritySource : Source :=
  { name := "links", kind := .findLinks,
    links := [prioritySdistLink, priorityWheelLink] }
def prioritySdistCand : InstallationCandidate := ⟨"priority", v10, prioritySdistLink⟩
def priorityWheelCand : InstallationCandidate := ⟨"priority", v10, priorityWheelLink⟩
def prioritySdistFileCand : InstallationCandidate :=
  ⟨"priority", v10, prioritySdistFileLink⟩

/-- `gmpy` file-versus-page scenario. -/
def gmpyPolicy : EvaluationPolicy := basicPolicy "gmpy"
def gmpyFileLink : Link :=
  mkLink "file:///pkgs/gmpy-1.15.tar.gz" .localFile "gmpy-1.15.tar.gz"
def gmpyHttpsLink : Link :=
  mkLink "https://pypi.org/pkgs/gmpy-1.15.tar.gz" .https "gmpy-1.15.tar.gz"
def gmpyFileSource : Source :=
  { name := "find-links", kind := .findLinks, links := [gmpyFileLink] }
def gmpyIndexSource : Source :=
  { name := "https://pypi.org/simple/", kind := .index, links := [gmpyHttpsLink] }
def gmpyHttpsFindLinksSource : Source :=
  { name := "find-links", kind := .findLinks, links := [gmpyHttpsLink] }
def gmpyFileIndexSource : Source :=
  { name := "https://pypi.org/simple/", kind := .index, links := [gmpyFileLink] }
def gmpyFileCand : InstallationCandidate := ⟨"gmpy", v115, gmpyFileLink⟩
def gmpyHttpsCand : InstallationCandidate := ⟨"gmpy", v115, gmpyHttpsLink⟩

/-- `simplewheel` build-tag scenario. -/
def swPolicy : EvaluationPolicy := basicPolicy "simplewheel"
def swLink201 : Link :=
  mkLink "https://f/simplewheel-2.0-1-py2.py3-none-any.whl" .https
    "simplewheel-2.0-1-py2.py3-none-any.whl"
def swLink20 : Link :=
  mkLink "https://f/simplewheel-2.0-py2.py3-none-any.whl" .https
    "simplewheel-2.0-py2.py3-none-any.whl"
def swLink10 : Link :=
  mkLink "https://f/simplewheel-1.0-py2.py3-none-any.whl" .https
    "simplewheel-1.0-py2.py3-none-any.whl"
def swLink20File : Link :=
  mkLink "file:///pkgs/simplewheel-2.0-py2.py3-none-any.whl" .localFile
    "simplewheel-2.0-py2.py3-none-any.whl"
def swC201 : InstallationCandidate := ⟨"simplewheel", v20, swLink201⟩
def swC20 : InstallationCandidate := ⟨"simplewheel", v20, swLink20⟩
def swC10 : InstallationCandidate := ⟨"simplewheel", v10, swLink10⟩
def swC20File : InstallationCandidate := ⟨"simplewheel", v20, swLink20File⟩
def swList : List InstallationCandidate := [swC201, swC20, swC10]

/-- `simple` sorting scenario: three candidates with pairwise distinct keys. -/
def simpleSdist20Cand : InstallationCandidate :=
  ⟨"simple", v20, mkLink "https://pkgs/simple-2.0.tar.gz" .https "simple-2.0.tar.gz"⟩
def simpleWheel10Cand : InstallationCandidate :=
  ⟨"simple", v10,
    mkLink "https://pkgs/simple-1.0-py2.py3-none-any.whl" .https
      "simple-1.0-py2.py3-none-any.whl"⟩
def simpleSdist10Cand : InstallationCandidate :=
  ⟨"simple", v10, mkLink "https://pkgs/simple-1.0.tar.gz" .https "simple-1.0.tar.gz"⟩
def simpleList : List InstallationCandidate :=
  [simpleSdist20Cand, simpleWheel10Cand, simpleSdist10Cand]

/-- Two candidates with identical sort keys but distinct URLs. -/
def dupACand : InstallationCandidate :=
  ⟨"simple", v10, mkLink "https://a/simple-1.0.tar.gz" .https "simple-1.0.tar.gz"⟩
def dupBCand : InstallationCandidate :=
  ⟨"simple", v10, mkLink "https://b/simple-1.0.tar.gz" .https "simple-1.0.tar.gz"⟩

/-! ### Relations used to state ordering properties -/

/-- Descending key order between candidates: the first is not strictly below
the second under the comparator. -/
def keyGe (pol : EvaluationPolicy) (a b : InstallationCandidate) : Prop :=
  cmpSortKey (candKey pol a) (candKey pol b) ≠ .lt

/-- Candidates whose sort keys tie are equal. -/
def tieEq (pol : EvaluationPolicy) (a b : InstallationCandidate) : Prop :=
  cmpSortKey (candKey pol a) (candKey pol b) = .eq → a = b

/-- The two candidates have distinct sort keys under the comparator. -/
def keyNe (pol : EvaluationPolicy) (a b : InstallationCandidate) : Prop :=
  cmpSortKey (candKey pol a) (candKey pol b) ≠ .eq

/-- A comparison function that is a lawful total order compare: `.eq` exactly
on equal arguments, antisymmetric under `swap`, and transitive on `.lt`. -/
structure LawfulCmp {α : Type} (cmp : α → α → Ordering) : Prop where
  eq_iff : ∀ a b, cmp a b = .eq ↔ a = b
  symm : ∀ a b, cmp a b = (cmp b a).swap
  lt_trans : ∀ a b c, cmp a b = .lt → cmp b c = .lt → cmp a c = .lt

instance (pol : EvaluationPolicy) (a b : InstallationCandidate) :
    Decidable (keyGe pol a b) :=
  inferInstanceAs (Decidable (cmpSortKey (candKey pol a) (candKey pol b) ≠ .lt))

instance (pol : EvaluationPolicy) (a b : InstallationCandidate) :
    Decidable (keyNe pol a b) :=
  inferInstanceAs (Decidable (cmpSortKey (candKey pol a) (candKey pol b) ≠ .eq))

/-! ### Ordering metatheory -/

theorem then_eq_iff (a b : Ordering) : a.then b = .eq ↔ a = .eq ∧ b = .eq := by
  cases a <;> cases b <;> decide

theorem then_lt_iff (a b : Ordering) :
    a.then b = .lt ↔ a = .lt ∨ (a = .eq ∧ b = .lt) := by
  cases a <;> cases b <;> decide

theorem then_swap (a b : Ordering) : (a.then b).swap = a.swap.then b.swap := by
  cases a <;> cases b <;> decide

theorem LawfulCmp.gt_iff {α : Type} {cmp : α → α → Ordering} (h : LawfulCmp cmp)
    (a b : α) : cmp a b = .gt ↔ cmp b a = .lt := by
  rw [h.symm a b]
  cases hcb : cmp b a <;> decide

theorem LawfulCmp.self_eq {α : Type} {cmp : α → α → Ordering} (h : LawfulCmp cmp)
    (a : α) : cmp a a = .eq := (h.eq_iff a a).mpr rfl

theorem LawfulCmp.ge_trans {α : Type} {cmp : α → α → Ordering} (h : LawfulCmp cmp)
    (a b c : α) : cmp a b ≠ .lt → cmp b c ≠ .lt → cmp a c ≠ .lt := by
  intro h1 h2
  cases hab : cmp a b with
  | lt => exact absurd hab h1
  | eq =>
    rw [h.eq_iff] at hab
    subst hab
    exact h2
  | gt =>
    cases hbc : cmp b c with
    | lt => exact absurd hbc h2
    | eq =>
      rw [h.eq_iff] at hbc
      subst hbc
      intro hac
      rw [hac] at hab
      cases hab
    | gt =>
      intro hac
      have hba : cmp b a = .lt := (h.gt_iff a b).mp hab
      have := h.lt_trans b a c hba hac
      rw [this] at hbc
      cases hbc

theorem LawfulCmp.tie_of_ge_ge {α : Type} {cmp : α → α → Ordering}
    (h : LawfulCmp cmp) (a b : α) :
    cmp a b ≠ .lt → cmp b a ≠ .lt → cmp a b = .eq := by
  intro h1 h2
  cases hab : cmp a b with
  | lt => exact absurd hab h1
  | eq => rfl
  | gt => exact absurd ((h.gt_iff a b).mp hab) h2

theorem LawfulCmp.asymm {α : Type} {cmp : α → α → Ordering} (h : LawfulCmp cmp)
    (a b : α) : cmp a b = .lt → cmp b a ≠ .lt := by
  intro hab hba
  have := h.lt_trans a b a hab hba
  rw [h.self_eq a] at this
  cases this

theorem cmpNat_eq_iff (a b : Nat) : cmpNat a b = .eq ↔ a = b := by
  unfold cmpNat
  by_cases h1 : a < b
  · simp [h1]
    omega
  · by_cases h2 : b < a
    · simp [h1, h2]
      omega
    · simp [h1, h2]
      omega

theorem cmpNat_lt_iff (a b : Nat) : cmpNat a b = .lt ↔ a < b := by
  unfold cmpNat
  by_cases h1 : a < b
  · simp [h1]
  · by_cases h2 : b < a
    · simp [h1, h2]
    · simp [h1, h2]

theorem cmpNat_gt_iff (a b : Nat) : cmpNat a b = .gt ↔ b < a := by
  unfold cmpNat
  by_cases h1 : a < b
  · simp [h1]
    omega
  · by_cases h2 : b < a
    · simp [h1, h2]
    · simp [h1, h2]

theorem cmpNat_symm (a b : Nat) : cmpNat a b = (cmpNat b a).swap := by
  unfold cmpNat
  by_cases h1 : a < b
  · have h2 : ¬ b < a := by omega
    simp [h1, h2, Ordering.swap]
  · by_cases h2 : b < a
    · simp [h1, h2, Ordering.swap]
    · simp [h1, h2, Ordering.swap]

theorem lawful_cmpNat : LawfulCmp cmpNat := by
  refine ⟨cmpNat_eq_iff, cmpNat_symm, ?_⟩
  intro a b c h1 h2
  rw [cmpNat_lt_iff] at h1 h2 ⊢
  omega

theorem cmpRelease_eq_iff : ∀ as bs : List Nat, cmpRelease as bs = .eq ↔ as = bs := by
  intro as
  induction as with
  | nil =>
    intro bs
    cases bs <;> simp [cmpRelease]
  | cons a as ih =>
    intro bs
    cases bs with
    | nil => simp [cmpRelease]
    | cons b bs => simp [cmpRelease, then_eq_iff, cmpNat_eq_iff, ih]

theorem cmpRelease_symm : ∀ as bs : List Nat,
    cmpRelease as bs = (cmpRelease bs as).swap := by
  intro as
  induction as with
  | nil =>
    intro bs
    cases bs <;> rfl
  | cons a as ih =>
    intro bs
    cases bs with
    | nil => rfl
    | cons b bs =>
      show (cmpNat a b).then (cmpRelease as bs) =
        ((cmpNat b a).then (cmpRelease bs as)).swap
      rw [then_swap, ← cmpNat_symm, ← ih]

theorem cmpRelease_lt_trans : ∀ as bs cs : List Nat, cmpRelease as bs = .lt →
    cmpRelease bs cs = .lt → cmpRelease as cs = .lt := by
  intro as
  induction as with
  | nil =>
    intro bs cs h1 h2
    cases bs with
    | nil => simp [cmpRelease] at h1
    | cons b bs =>
      cases cs with
      | nil => simp [cmpRelease] at h2
      | cons c cs => simp [cmpRelease]
  | cons a as ih =>
    intro bs cs h1 h2
    cases bs with
    | nil => simp [cmpRelease] at h1
    | cons b bs =>
      cases cs with
      | nil => simp [cmpRelease] at h2
      | cons c cs =>
        simp only [cmpRelease, then_lt_iff] at h1 h2 ⊢
        rcases h1 with h1 | ⟨h1e, h1r⟩ <;> rcases h2 with h2 | ⟨h2e, h2r⟩
        · exact Or.inl (lawful_cmpNat.lt_trans a b c h1 h2)
        · rw [cmpNat_eq_iff] at h2e
          rw [← h2e]
          exact Or.inl h1
        · rw [cmpNat_eq_iff] at h1e
          rw [h1e]
          exact Or.inl h2
        · rw [cmpNat_eq_iff] at h1e h2e
          refine Or.inr ⟨?_, ih bs cs h1r h2r⟩
          rw [cmpNat_eq_iff]
          exact h1e.trans h2e

theorem lawful_cmpRelease : LawfulCmp cmpRelease :=
  ⟨cmpRelease_eq_iff, cmpRelease_symm, cmpRelease_lt_trans⟩

theorem lawful_cmpProd {β γ : Type} {cb : β → β → Ordering} {cg : γ → γ → Ordering}
    (hb : LawfulCmp cb) (hg : LawfulCmp cg) : LawfulCmp (cmpProd cb cg) := by
  constructor
  · intro x y
    simp [cmpProd, then_eq_iff, hb.eq_iff, hg.eq_iff, Prod.ext_iff]
  · intro x y
    show (cb x.1 y.1).then (cg x.2 y.2) = ((cb y.1 x.1).then (cg y.2 x.2)).swap
    rw [then_swap, ← hb.symm, ← hg.symm]
  · intro x y z h1 h2
    simp only [cmpProd, then_lt_iff] at h1 h2 ⊢
    rcases h1 with h1 | ⟨h1e, h1r⟩ <;> rcases h2 with h2 | ⟨h2e, h2r⟩
    · exact Or.inl (hb.lt_trans _ _ _ h1 h2)
    · rw [hb.eq_iff] at h2e
      rw [← h2e]
      exact Or.inl h1
    · rw [hb.eq_iff] at h1e
      rw [h1e]
      exact Or.inl h2
    · rw [hb.eq_iff] at h1e h2e
      refine Or.inr ⟨?_, hg.lt_trans _ _ _ h1r h2r⟩
      rw [hb.eq_iff]
      exact h1e.trans h2e

theorem lawful_pullback {α β : Type} {cmp : β → β → Ordering} (f : α → β)
    (hf : ∀ a b, f a = f b → a = b) (hc : LawfulCmp cmp) :
    LawfulCmp (fun a b => cmp (f a) (f b)) := by
  constructor
  · intro a b
    show cmp (f a) (f b) = .eq ↔ a = b
    rw [hc.eq_iff]
    exact ⟨hf a b, fun h => by rw [h]⟩
  · intro a b
    exact hc.symm _ _
  · intro a b c h1 h2
    exact hc.lt_trans _ _ _ h1 h2

theorem vmodRank_inj : ∀ a b : VMod, vmodRank a = vmodRank b → a = b := by
  intro a b h
  cases a <;> cases b <;> simp_all [vmodRank]

theorem lawful_cmpVMod : LawfulCmp cmpVMod :=
  lawful_pullback vmodRank vmodRank_inj
    (lawful_cmpProd lawful_cmpNat (lawful_cmpProd lawful_cmpNat lawful_cmpNat))

theorem version_pair_inj : ∀ a b : Version,
    ((a.release, a.mod) : List Nat × VMod) = (b.release, b.mod) → a = b := by
  intro a b h
  cases a
  cases b
  simp_all

theorem lawful_cmpVersion : LawfulCmp cmpVersion :=
  lawful_pullback (fun v : Version => (v.release, v.mod)) version_pair_inj
    (lawful_cmpProd lawful_cmpRelease lawful_cmpVMod)

theorem sortKeyTuple_inj : ∀ a b : SortKey, sortKeyTuple a = sortKeyTuple b → a = b := by
  intro a b h
  cases a
  cases b
  simp_all [sortKeyTuple]

theorem lawful_cmpSortKey : LawfulCmp cmpSortKey :=
  lawful_pullback sortKeyTuple sortKeyTuple_inj
    (lawful_cmpProd lawful_cmpNat (lawful_cmpProd lawful_cmpNat (lawful_cmpProd
      lawful_cmpNat (lawful_cmpProd lawful_cmpNat (lawful_cmpProd lawful_cmpVersion
        (lawful_cmpProd (lawful_cmpProd lawful_cmpNat lawful_cmpNat)
          lawful_cmpNat))))))

/-! ### Sorting metatheory -/

theorem keyGe_trans (pol : EvaluationPolicy) (a b c : InstallationCandidate) :
    keyGe pol a b → keyGe pol b c → keyGe pol a c :=
  lawful_cmpSortKey.ge_trans _ _ _

theorem insertCand_perm (pol : EvaluationPolicy) (c : InstallationCandidate) :
    ∀ l, (insertCand pol c l).Perm (c :: l) := by
  intro l
  induction l with
  | nil => exact List.Perm.refl _
  | cons d rest ih =>
    show (if cmpSortKey (candKey pol c) (candKey pol d) = .lt then
        d :: insertCand pol c rest else c :: d :: rest).Perm (c :: d :: rest)
    split
    · exact (ih.cons d).trans (List.Perm.swap c d rest)
    · exact List.Perm.refl _

theorem sortCandidates_perm (pol : EvaluationPolicy) :
    ∀ l, (sortCandidates pol l).Perm l := by
  intro l
  induction l with
  | nil => exact List.Perm.refl _
  | cons c rest ih =>
    show (insertCand pol c (sortCandidates pol rest)).Perm (c :: rest)
    exact (insertCand_perm pol c _).trans (ih.cons c)

theorem insertCand_mem (pol : EvaluationPolicy) (c : InstallationCandidate)
    (l : List InstallationCandidate) (x : InstallationCandidate) :
    x ∈ insertCand pol c l ↔ x = c ∨ x ∈ l := by
  rw [(insertCand_perm pol c l).mem_iff]
  exact List.mem_cons

theorem insertCand_pairwise (pol : EvaluationPolicy) (c : InstallationCandidate) :
    ∀ l, l.Pairwise (keyGe pol) → (insertCand pol c l).Pairwise (keyGe pol) := by
  intro l
  induction l with
  | nil =>
    intro _
    exact List.pairwise_singleton _ _
  | cons d rest ih =>
    intro h
    rw [List.pairwise_cons] at h
    obtain ⟨hd, hrest⟩ := h
    show (if cmpSortKey (candKey pol c) (candKey pol d) = .lt then
        d :: insertCand pol c rest else c :: d :: rest).Pairwise (keyGe pol)
    split
    case isTrue hlt =>
      rw [List.pairwise_cons]
      constructor
      · intro x hx
        rcases (insertCand_mem pol c rest x).mp hx with rfl | hx
        · exact lawful_cmpSortKey.asymm _ _ hlt
        · exact hd x hx
      · exact ih hrest
    case isFalse hge =>
      rw [List.pairwise_cons]
      constructor
      · intro x hx
        rcases List.mem_cons.mp hx with rfl | hx
        · exact hge
        · exact keyGe_trans pol c d x hge (hd x hx)
      · rw [List.pairwise_cons]
        exact ⟨hd, hrest⟩

theorem sortCandidates_pairwise (pol : EvaluationPolicy) :
    ∀ l, (sortCandidates pol l).Pairwise (keyGe pol) := by
  intro l
  induction l with
  | nil => exact List.Pairwise.nil
  | cons c rest ih => exact insertCand_pairwise pol c _ ih

theorem sorted_unique (pol : EvaluationPolicy) :
    ∀ l1 l2 : List InstallationCandidate, l1.Perm l2 →
      l1.Pairwise (keyGe pol) → l2.Pairwise (keyGe pol) →
      l1.Pairwise (tieEq pol) → l1 = l2 := by
  intro l1
  induction l1 with
  | nil =>
    intro l2 hp _ _ _
    exact (List.Perm.eq_nil hp.symm).symm
  | cons a t1 ih =>
    intro l2 hp hs1 hs2 ht
    cases l2 with
    | nil => exact absurd (List.Perm.eq_nil hp) (by simp)
    | cons b t2 =>
      rw [List.pairwise_cons] at hs1 hs2 ht
      by_cases hab : a = b
      · subst hab
        rw [ih t2 hp.cons_inv hs1.2 hs2.2 ht.2]
      · exfalso
        have hamem : a ∈ b :: t2 := hp.subset (List.mem_cons_self a t1)
        have hbmem : b ∈ a :: t1 := hp.symm.subset (List.mem_cons_self b t2)
        have ha2 : a ∈ t2 := by
          rcases List.mem_cons.mp hamem with h | h
          · exact absurd h hab
          · exact h
        have hb1 : b ∈ t1 := by
          rcases List.mem_cons.mp hbmem with h | h
          · exact absurd h (fun hh => hab hh.symm)
          · exact h
        have h1 : keyGe pol a b := hs1.1 b hb1
        have h2 : keyGe pol b a := hs2.1 a ha2
        exact hab (ht.1 b hb1 (lawful_cmpSortKey.tie_of_ge_ge _ _ h1 h2))

theorem tieEq_symmetric (pol : EvaluationPolicy) : Symmetric (tieEq pol) := by
  intro x y hxy h
  have hyx : cmpSortKey (candKey pol x) (candKey pol y) = .eq := by
    rw [lawful_cmpSortKey.symm, h]
    rfl
  exact (hxy hyx).symm

theorem pickBest_mem (pol : EvaluationPolicy) :
    ∀ (cs : List InstallationCandidate) (c : InstallationCandidate),
      pickBest pol c cs = c ∨ pickBest pol c cs ∈ cs := by
  intro cs
  induction cs with
  | nil =>
    intro c
    exact Or.inl rfl
  | cons d ds ih =>
    intro c
    show pickBest pol
        (if cmpSortKey (candKey pol d) (candKey pol c) = .gt then d else c) ds = c ∨
      pickBest pol
        (if cmpSortKey (candKey pol d) (candKey pol c) = .gt then d else c) ds ∈ d :: ds
    split
    · rcases ih d with h | h
      · rw [h]
        exact Or.inr (List.mem_cons_self _ _)
      · exact Or.inr (List.mem_cons_of_mem d h)
    · rcases ih c with h | h
      · exact Or.inl h
      · exact Or.inr (List.mem_cons_of_mem d h)

theorem bestCandidate_mem (pol : EvaluationPolicy)
    (l : List InstallationCandidate) (c : InstallationCandidate) :
    bestCandidate pol l = some c → c ∈ l := by
  cases l with
  | nil => intro h; cases h
  | cons d ds =>
    intro h
    have hc : pickBest pol d ds = c := by
      have : some (pickBest pol d ds) = some c := h
      exact Option.some.inj this
    rcases pickBest_mem pol ds d with hm | hm
    · rw [← hc, hm]
      exact List.mem_cons_self _ _
    · rw [← hc]
      exact List.mem_cons_of_mem d hm

/-! ### Helper facts for the claim theorems -/

theorem cmpNat_self (a : Nat) : cmpNat a a = .eq := lawful_cmpNat.self_eq a

theorem cmpVersion_self (v : Version) : cmpVersion v v = .eq :=
  lawful_cmpVersion.self_eq v

theorem eq_then (o : Ordering) : Ordering.eq.then o = o := rfl

theorem gt_then (o : Ordering) : Ordering.gt.then o = .gt := rfl

theorem cmpNat_one_zero : cmpNat 1 0 = .gt := by decide

theorem cmpNat_two_one : cmpNat 2 1 = .gt := by decide

theorem findVersionSuffix_canonical (c : String) :
    ∀ (l acc : List Char) (n : String) (v : List Char),
      findVersionSuffix c acc l = some (n, v) → canonicalize_name n = c := by
  intro l
  induction l with
  | nil =>
    intro acc n v h
    simp [findVersionSuffix] at h
  | cons ch rest ih =>
    intro acc n v h
    simp only [findVersionSuffix] at h
    split at h
    case isTrue hcond =>
      simp only [Option.some.injEq, Prod.mk.injEq] at h
      rw [← h.1]
      exact hcond.2
    case isFalse =>
      exact ih _ _ _ h

theorem parseLinkFilename_sdist_canonical (c fn : String) (n : String)
    (v : List Char) :
    parseLinkFilename c fn = .sdistFile n v → canonicalize_name n = c := by
  intro h
  unfold parseLinkFilename at h
  split at h
  · split at h
    · cases h
    · cases h
  · split at h
    · cases h
    · split at h
      · next nm vs heq =>
          injection h with h1 h2
          rw [← h1]
          exact findVersionSuffix_canonical c _ [] nm vs heq
      · cases h

/-! ### Claim theorems -/

/-- C1 counterexample: the sort key is not injective — two candidates that
differ only in URL carry identical keys, so sorting a list and its reverse
yields different orders for them, refuting input-order invariance for every
list. -/
theorem c1_counterexample :
    sortCandidates simplePolicy [dupACand, dupBCand] ≠
      sortCandidates simplePolicy ([dupACand, dupBCand]).reverse := by
  decide

/-- C1 (amended): on every candidate list whose sort keys are pairwise
distinct under the comparator, the comparator behaves as a strict total order
and sorting the list and its reverse yield the identical ordering. -/
theorem c1_sort_invariance (pol : EvaluationPolicy)
    (l : List InstallationCandidate) (h : l.Pairwise (keyNe pol)) :
    sortCandidates pol l = sortCandidates pol l.reverse := by
  have hperm : (sortCandidates pol l).Perm (sortCandidates pol l.reverse) :=
    (sortCandidates_perm pol l).trans
      ((List.reverse_perm l).symm.trans (sortCandidates_perm pol l.reverse).symm)
  apply sorted_unique pol _ _ hperm (sortCandidates_pairwise pol l)
    (sortCandidates_pairwise pol l.reverse)
  have hl : l.Pairwise (tieEq pol) := h.imp fun hne heq => absurd heq hne
  exact ((sortCandidates_perm pol l).pairwise_iff
    (fun hxy => tieEq_symmetric pol hxy)).mpr hl

/-- C1 witness: a concrete three-candidate list with pairwise distinct keys,
for which sorting the list and its reverse agree. -/
theorem c1_sort_invariance_witness :
    simpleList.Pairwise (keyNe simplePolicy) ∧
      sortCandidates simplePolicy simpleList =
        sortCandidates simplePolicy simpleList.reverse :=
  ⟨by decide, c1_sort_invariance simplePolicy simpleList (by decide)⟩

/-- C2: for every policy, source list and optional installed version,
find_best_candidate returns one of the tagged outcomes Found /
AlreadySatisfied / NotFound (the not-found case naming every consulted
source); discovery failures are values, not exceptions. -/
theorem c2_tagged_outcome (pol : EvaluationPolicy) (srcs : List Source)
    (installed : Option Version) :
    (∃ c, find_best_candidate pol srcs installed = .found c) ∨
      find_best_candidate pol srcs installed = .alreadySatisfied ∨
      find_best_candidate pol srcs installed =
        .notFound (srcs.map fun s => s.name) := by
  unfold find_best_candidate
  cases hb : bestCandidate pol
      (applicableCandidates pol (find_all_candidates pol srcs)) with
  | none =>
    right
    right
    rfl
  | some best =>
    cases installed with
    | none => exact Or.inl ⟨best, rfl⟩
    | some iv =>
      by_cases h : cmpVersion iv best.version = .lt
      · refine Or.inl ⟨best, ?_⟩
        show (if cmpVersion iv best.version = Ordering.lt then Outcome.found best
          else Outcome.alreadySatisfied) = Outcome.found best
        rw [if_pos h]
      · right
        left
        show (if cmpVersion iv best.version = Ordering.lt then Outcome.found best
          else Outcome.alreadySatisfied) = Outcome.alreadySatisfied
        rw [if_neg h]

/-- C3: whenever evaluate_link accepts a link, the parsed project name
canonicalizes exactly to the target's canonical name — never to a strict
prefix or strict extension of it; and the concrete superstring names
pytest2 (sdist), pytest_xdist (wheel) and simple2 (sdist) are rejected. -/
theorem c3_exact_name_match :
    (∀ (pol : EvaluationPolicy) (link : Link) (v : Version) (n : String),
        evaluate_link pol link = .accepted v →
        linkParsedName (canonicalize_name pol.projectName) link.filename = some n →
        canonicalize_name n = canonicalize_name pol.projectName ∧
          ¬ properLead (canonicalize_name n) (canonicalize_name pol.projectName) ∧
          ¬ properLead (canonicalize_name pol.projectName) (canonicalize_name n)) ∧
      evaluate_link pytestPolicy pytest2Link =
        .rejected "Missing project version for pytest" ∧
      evaluate_link pytestPolicy pytestXdistLink =
        .rejected "wrong project name (not pytest)" ∧
      evaluate_link simplePolicy simple2Link =
        .rejected "Missing project version for simple" := by
  refine ⟨?_, by decide, by decide, by decide⟩
  intro pol link v n hacc hname
  cases hp : parseLinkFilename (canonicalize_name pol.projectName) link.filename with
  | badExt =>
    simp [linkParsedName, hp] at hname
  | badWheel =>
    simp [linkParsedName, hp] at hname
  | noVersion =>
    simp [linkParsedName, hp] at hname
  | wheelFile w =>
    simp only [linkParsedName, hp, Option.some.injEq] at hname
    simp only [evaluate_link, hp] at hacc
    by_cases hc : canonicalize_name w.name = canonicalize_name pol.projectName
    · rw [hname] at hc
      refine ⟨hc, ?_, ?_⟩
      · intro hpl
        exact hpl.1 hc
      · intro hpl
        exact hpl.1 hc.symm
    · rw [if_neg hc] at hacc
      cases hacc
  | sdistFile nm vchars =>
    simp only [linkParsedName, hp, Option.some.injEq] at hname
    have hcanon := parseLinkFilename_sdist_canonical _ _ _ _ hp
    rw [hname] at hcanon
    refine ⟨hcanon, ?_, ?_⟩
    · intro hpl
      exact hpl.1 hcanon
    · intro hpl
      exact hpl.1 hcanon.symm

/-- C3 witness: a correctly named sdist is accepted, and its parsed name
canonicalizes exactly to the target name. -/
theorem c3_exact_name_match_witness :
    evaluate_link pytestPolicy pytestOkLink = .accepted v10 ∧
      (canonicalize_name "pytest" = canonicalize_name pytestPolicy.projectName ∧
        ¬ properLead (canonicalize_name "pytest")
            (canonicalize_name pytestPolicy.projectName) ∧
        ¬ properLead (canonicalize_name pytestPolicy.projectName)
            (canonicalize_name "pytest")) :=
  ⟨by decide,
    c3_exact_name_match.1 pytestPolicy pytestOkLink v10 "pytest" (by decide)
      (by decide)⟩

/-- C4: with pre-releases not allowed and a specifier that does not itself
demand a pre-release, filtering never lets a pre-release/dev version through;
concretely the default policy picks the stable 1.0 over 2.0b1, while enabling
pre-releases or using the specifier >=0.0.dev0 picks 2.0b1. -/
theorem c4_prerelease_filtering :
    (∀ (pol : EvaluationPolicy) (cands : List InstallationCandidate)
        (c : InstallationCandidate),
        pol.allowAllPrereleases = false →
        specifierPermitsPre pol.specifier = false →
        c ∈ applicableCandidates pol cands →
        c.version.isPre = false) ∧
      find_best_candidate barPolicy [barSource] none = .found barCand10 ∧
      find_best_candidate barPolicyPre [barSource] none = .found barCand20b1 ∧
      find_best_candidate barPolicySpec [barSource] none = .found barCand20b1 := by
  refine ⟨?_, by decide, by decide, by decide⟩
  intro pol cands c h1 h2 h3
  unfold applicableCandidates at h3
  rw [List.mem_filter] at h3
  have hb := h3.2
  rw [h1, h2] at hb
  simp at hb
  exact hb.2

/-- C4 witness: the stable candidate passes default filtering and is indeed
not a pre-release. -/
theorem c4_prerelease_filtering_witness :
    barPolicy.allowAllPrereleases = false ∧
      specifierPermitsPre barPolicy.specifier = false ∧
      barCand10 ∈ applicableCandidates barPolicy [barCand10, barCand20b1] ∧
      Version.isPre barCand10.version = false :=
  ⟨by decide, by decide, by decide,
    c4_prerelease_filtering.1 barPolicy [barCand10, barCand20b1] barCand10
      (by decide) (by decide) (by decide)⟩

/-- C5: when an installed version is supplied and no applicable candidate has
a strictly greater version (an installed distribution carries no link, so
only the version component can discriminate), find_best_candidate returns
AlreadySatisfied — in particular for installed 1.0 with only 1.0 candidates,
even though one of them is a wheel. -/
theorem c5_already_satisfied :
    (∀ (pol : EvaluationPolicy) (srcs : List Source) (iv : Version),
        applicableCandidates pol (find_all_candidates pol srcs) ≠ [] →
        (∀ c ∈ applicableCandidates pol (find_all_candidates pol srcs),
          cmpVersion c.version iv ≠ .gt) →
        find_best_candidate pol srcs (some iv) = .alreadySatisfied) ∧
      find_best_candidate priorityPolicy [prioritySource] (some v10) =
        .alreadySatisfied := by
  refine ⟨?_, by decide⟩
  intro pol srcs iv hne hall
  unfold find_best_candidate
  cases hb : bestCandidate pol
      (applicableCandidates pol (find_all_candidates pol srcs)) with
  | none =>
    exfalso
    apply hne
    cases hl : applicableCandidates pol (find_all_candidates pol srcs) with
    | nil => rfl
    | cons c cs =>
      rw [hl] at hb
      cases hb
  | some best =>
    have hmem := bestCandidate_mem pol _ _ hb
    have hv := hall best hmem
    have hnlt : cmpVersion iv best.version ≠ .lt := by
      intro hlt
      exact hv ((lawful_cmpVersion.gt_iff _ _).mpr hlt)
    show (if cmpVersion iv best.version = Ordering.lt then Outcome.found best
      else Outcome.alreadySatisfied) = Outcome.alreadySatisfied
    rw [if_neg hnlt]

/-- C5 witness: a scenario where the installed version 9.0 outranks the only
discovered candidate 1.0, so the outcome is AlreadySatisfied. -/
theorem c5_already_satisfied_witness :
    applicableCandidates barPolicy (find_all_candidates barPolicy [barSource]) ≠ [] ∧
      find_best_candidate barPolicy [barSource] (some v90) = .alreadySatisfied :=
  ⟨by decide, c5_already_satisfied.1 barPolicy [barSource] v90 (by decide) (by decide)⟩

/-- C6 counterexample: a local-file sdist and an https wheel of the same
version with equally matching tags — the comparator ranks the sdist above the
wheel (scheme outranks format), and selection returns the sdist, refuting the
claim for every such pair. -/
theorem c6_counterexample :
    cmpSortKey (candKey priorityPolicy priorityWheelCand)
        (candKey priorityPolicy prioritySdistFileCand) = .lt ∧
      bestCandidate priorityPolicy [priorityWheelCand, prioritySdistFileCand] =
        some prioritySdistFileCand := by
  exact ⟨by decide, by decide⟩

/-- C6 (amended): for candidates of equal version, yank status, hash status
and scheme, binary format outranks source format under the comparator, and in
the concrete equal-scheme scenario the wheel is selected over the sdist. -/
theorem c6_wheel_over_sdist :
    (∀ k j : SortKey, k.yankRank = j.yankRank → k.hashRank = j.hashRank →
        k.schemeRank = j.schemeRank → k.version = j.version →
        k.formatRank = 1 → j.formatRank = 0 → cmpSortKey k j = .gt) ∧
      bestCandidate priorityPolicy [prioritySdistCand, priorityWheelCand] =
        some priorityWheelCand ∧
      find_best_candidate priorityPolicy [prioritySource] none =
        .found priorityWheelCand := by
  refine ⟨?_, by decide, by decide⟩
  intro k j h1 h2 h3 hv h4 h5
  simp [cmpSortKey, cmpProd, sortKeyTuple, h1, h2, h3, hv, h4, h5, cmpNat_self,
    cmpVersion_self, eq_then, cmpNat_one_zero, gt_then]

/-- C6 witness: the wheel and sdist keys of the `priority` scenario satisfy
the equal-context hypotheses and the wheel's key compares greater. -/
theorem c6_wheel_over_sdist_witness :
    (candKey priorityPolicy priorityWheelCand).yankRank =
        (candKey priorityPolicy prioritySdistCand).yankRank ∧
      (candKey priorityPolicy priorityWheelCand).formatRank = 1 ∧
      cmpSortKey (candKey priorityPolicy priorityWheelCand)
        (candKey priorityPolicy prioritySdistCand) = .gt :=
  ⟨by decide, by decide,
    c6_wheel_over_sdist.1 (candKey priorityPolicy priorityWheelCand)
      (candKey priorityPolicy prioritySdistCand) (by decide) (by decide)
      (by decide) (by decide) (by decide) (by decide)⟩

/-- C7 counterexample: find_all_candidates orders by source declaration, not
scheme — with an https link in a find-links source and a file link in an
index source, the https candidate is listed first even though the pair has
identical version and format. -/
theorem c7_counterexample :
    (find_all_candidates gmpyPolicy
        [gmpyHttpsFindLinksSource, gmpyFileIndexSource]).map
      (fun c => c.link.scheme) = [.https, .localFile] := by
  decide

/-- C7 (amended): under the comparator the local-file scheme outranks a
network scheme whenever yank and hash status agree, so best-candidate
selection picks the file link regardless of listing order; the file candidate
is listed first in find_all_candidates when its source is declared first
(find-links before index pages). -/
theorem c7_file_over_network :
    (∀ k j : SortKey, k.yankRank = j.yankRank → k.hashRank = j.hashRank →
        k.schemeRank = 2 → j.schemeRank = 1 → cmpSortKey k j = .gt) ∧
      find_all_candidates gmpyPolicy [gmpyFileSource, gmpyIndexSource] =
        [gmpyFileCand, gmpyHttpsCand] ∧
      find_best_candidate gmpyPolicy [gmpyFileSource, gmpyIndexSource] none =
        .found gmpyFileCand ∧
      bestCandidate gmpyPolicy [gmpyHttpsCand, gmpyFileCand] =
        some gmpyFileCand := by
  refine ⟨?_, by decide, by decide, by decide⟩
  intro k j h1 h2 h3 h4
  simp [cmpSortKey, cmpProd, sortKeyTuple, h1, h2, h3, h4, cmpNat_self, eq_then,
    cmpNat_two_one, gt_then]

/-- C7 witness: the gmpy file and https keys satisfy the hypotheses and the
file key compares greater. -/
theorem c7_file_over_network_witness :
    (candKey gmpyPolicy gmpyFileCand).schemeRank = 2 ∧
      (candKey gmpyPolicy gmpyHttpsCand).schemeRank = 1 ∧
      cmpSortKey (candKey gmpyPolicy gmpyFileCand)
        (candKey gmpyPolicy gmpyHttpsCand) = .gt :=
  ⟨by decide, by decide,
    c7_file_over_network.1 (candKey gmpyPolicy gmpyFileCand)
      (candKey gmpyPolicy gmpyHttpsCand) (by decide) (by decide) (by decide)
      (by decide)⟩

/-- C8 counterexample: two wheels of the same version with identical tags,
the build-tag-1 wheel on https and the no-build-tag wheel on a local file —
the no-build-tag wheel wins because scheme outranks the build tag. -/
theorem c8_counterexample :
    cmpSortKey (candKey swPolicy swC201) (candKey swPolicy swC20File) = .lt ∧
      bestCandidate swPolicy [swC201, swC20File] = some swC20File := by
  exact ⟨by decide, by decide⟩

/-- C8 (amended): with yank, hash, scheme, format and version all equal, the
build tag is compared as an integer — absent lowest, higher integer wins —
and in the concrete equal-scheme scenario the build-tag-1 wheel sorts first
and is selected. -/
theorem c8_build_tag :
    (∀ (k j : SortKey) (b : Nat), k.yankRank = j.yankRank →
        k.hashRank = j.hashRank → k.schemeRank = j.schemeRank →
        k.formatRank = j.formatRank → k.version = j.version →
        k.buildRank = (1, b) →
        (j.buildRank = (0, 0) ∨ ∃ b2, j.buildRank = (1, b2) ∧ b2 < b) →
        cmpSortKey k j = .gt) ∧
      sortCandidates swPolicy swList = swList ∧
      sortCandidates swPolicy swList.reverse = swList ∧
      bestCandidate swPolicy [swC20, swC201] = some swC201 := by
  refine ⟨?_, by decide, by decide, by decide⟩
  intro k j b h1 h2 h3 h4 hv h5 h6
  rcases h6 with h6 | ⟨b2, h6, hb2⟩
  · simp [cmpSortKey, cmpProd, sortKeyTuple, h1, h2, h3, h4, hv, h5, h6,
      cmpNat_self, cmpVersion_self, eq_then, cmpNat_one_zero, gt_then]
  · have hgt : cmpNat b b2 = .gt := (cmpNat_gt_iff b b2).mpr hb2
    simp [cmpSortKey, cmpProd, sortKeyTuple, h1, h2, h3, h4, hv, h5, h6,
      cmpNat_self, cmpVersion_self, eq_then, hgt, gt_then]

/-- C8 witness: the build-tag-1 wheel's key has build rank (1, 1), the
no-build-tag wheel's key has build rank (0, 0), and the former compares
greater. -/
theorem c8_build_tag_witness :
    (candKey swPolicy swC201).buildRank = (1, 1) ∧
      (candKey swPolicy swC20).buildRank = (0, 0) ∧
      cmpSortKey (candKey swPolicy swC201) (candKey swPolicy swC20) = .gt :=
  ⟨by decide, by decide,
    c8_build_tag.1 (candKey swPolicy swC201) (candKey swPolicy swC20) 1
      (by decide) (by decide) (by decide) (by decide) (by decide) (by decide)
      (Or.inl (by decide))⟩

end PipFinder
